import Mathlib

/-!
Verification of the request-signing and transcoding core of the `aioweixin`
payment-client library (files `aioweixin/util.py`, `aioweixin/errors.py`,
`aioweixin/pay.py`).

Parameter maps are embedded as association lists `List (String × String)`
(respectively `List (String × PyVal)` for decoded responses, whose values may
be Python `None`).  Python dicts preserve insertion order and have unique
keys; theorems that depend on key uniqueness carry an explicit `keysNodup`
hypothesis.  Values are taken after Python's string rendering
(`"{0}".format(v)` in `WeixinPay.sign`), so maps are string-valued.

External collaborators of the code (CPython `hashlib`, `hmac`, `random`,
`string`, and the `xmltodict` library backed by `expat`) are modelled from
their real, documented behaviour, restricted to the flat single-level
document domain that the specification fixes for this protocol.
-/

namespace Aioweixin

/-- A decoded XML value in Python: either a string or `None` (xmltodict
parses an empty element to `None`). -/
inductive PyVal where
  | str (s : String)
  | none
deriving DecidableEq, Repr

/-- The Python exceptions that the embedded core can raise.
`weixinError` is the library's own `WeixinError(code, msg)` class
(`aioweixin/errors.py`); the others are CPython built-ins:
`expatError` for `xml.parsers.expat.ExpatError`, `typeError` and
`valueError` for `TypeError`/`ValueError`, `keyError k` for `KeyError(k)`. -/
inductive PyErr where
  | expatError
  | typeError
  | valueError
  | keyError (k : String)
  | weixinError (code msg : PyVal)
deriving DecidableEq, Repr

instance {ε α : Type} [DecidableEq ε] [DecidableEq α] : DecidableEq (Except ε α) := fun x y =>
  match x, y with
  | .ok a, .ok b =>
    if h : a = b then isTrue (by rw [h]) else isFalse (by intro hh; cases hh; exact h rfl)
  | .error a, .error b =>
    if h : a = b then isTrue (by rw [h]) else isFalse (by intro hh; cases hh; exact h rfl)
  | .ok _, .error _ => isFalse (by intro hh; cases hh)
  | .error _, .ok _ => isFalse (by intro hh; cases hh)

/-- First-match association-list lookup, the semantics of `d[k]` / `d.get(k)`
on a Python dict embedded as an ordered association list with unique keys. -/
def lookupA {α : Type} (k : String) : List (String × α) → Option α
  | [] => Option.none
  | kv :: rest => if kv.1 = k then some kv.2 else lookupA k rest

/-- `d.get(k, default)`. -/
def getD {α : Type} (m : List (String × α)) (k : String) (d : α) : α :=
  (lookupA k m).getD d

/-- `d.setdefault(k, v)`: insert `(k, v)` at the end iff `k` is absent
(Python dicts append new keys in insertion order). -/
def setdefault (m : List (String × String)) (k v : String) : List (String × String) :=
  match lookupA k m with
  | some _ => m
  | Option.none => m ++ [(k, v)]

/-- The keys of the map are pairwise distinct (always true of a Python dict). -/
def keysNodup {α : Type} (m : List (String × α)) : Prop :=
  (m.map Prod.fst).Nodup

instance {α : Type} (m : List (String × α)) : Decidable (keysNodup m) := by
  unfold keysNodup; infer_instance

/-! ### The nonce generator (`aioweixin/util.py`, `rand_str`)

`rand_str(length)` draws each character with `random.choice` from
`string.ascii_letters + string.digits`.  The random source is embedded as an
explicit oracle `pick : Nat → Fin 62` giving the index chosen at each
position. -/

/-- `string.ascii_letters + string.digits` in CPython's order. -/
def ALPHANUM : List Char :=
  "abcdefghijklmnopqrstuvwxyzABCDEFGHIJKLMNOPQRSTUVWXYZ0123456789".data

/-- `random.choice(char)` for a drawn index. -/
def pickChar (j : Fin 62) : Char := ALPHANUM.getD j.val 'a'

/-- `rand_str` from `aioweixin/util.py`, with the random source explicit. -/
def rand_str (pick : Nat → Fin 62) (length : Nat) : String :=
  ⟨(List.range length).map (fun i => pickChar (pick i))⟩

/-- The `WeixinPay.nonce_str` property: `rand_str(32)`. -/
def nonce_str (pick : Nat → Fin 62) : String := rand_str pick 32

/-! ### Python's stable sort by key (`data.sort(key=lambda x: x[0])`)

Python's `list.sort` is a stable sort; sorting pairs with `key=lambda x: x[0]`
compares only the keys, by Unicode code points.  Lean's `String` order from
Mathlib is the same code-point lexicographic order.  A stable sort by a total
preorder is unique as a function, so the insertion sort below is extensionally
the sort the source performs. -/

/-- Code-point lexicographic `≤` on character lists: exactly CPython's
comparison of `str` values. -/
def charsLe : List Char → List Char → Bool
  | [], _ => true
  | _ :: _, [] => false
  | c :: cs, d :: ds =>
    if c.toNat < d.toNat then true
    else if d.toNat < c.toNat then false
    else charsLe cs ds

/-- Python's `str` comparison. -/
def pyLe (a b : String) : Bool := charsLe a.data b.data

/-- Stable insertion of one pair into a list sorted by key. -/
def insertPair (p : String × String) : List (String × String) → List (String × String)
  | [] => [p]
  | q :: rest => if pyLe p.1 q.1 then p :: q :: rest else q :: insertPair p rest

/-- Stable sort of the pair list by key, ascending: `data.sort(key=lambda x: x[0])`. -/
def sortPairs : List (String × String) → List (String × String)
  | [] => []
  | p :: rest => insertPair p (sortPairs rest)

/-! ### The canonical signing string (`WeixinPay.sign`, lines 119-122)

```
data = [(k, "{0}".format(v)) for k, v in data.items()]
data.sort(key=lambda x: x[0])
s = "&".join("=".join(kv) for kv in data if kv[1])
s += "&key={0}".format(self._mch_key)
```
-/

/-- `"&".join("=".join(kv) for kv in l)`. -/
def joinAmp (l : List (String × String)) : String :=
  String.intercalate "&" (l.map (fun kv => kv.1 ++ "=" ++ kv.2))

/-- The canonical signing string built by `WeixinPay.sign`: sort by key, drop
entries with an empty (falsy) string value while joining, append the secret. -/
def signString (mchKey : String) (data : List (String × String)) : String :=
  joinAmp ((sortPairs data).filter (fun kv => kv.2 != "")) ++ "&key=" ++ mchKey

/-- The canonical string as the specification words it: first filter out
entries whose string-rendered value is empty, then sort the remaining entries
by key ascending, join as `key=value` with `&`, append `&key=<secret>`.
(The source sorts before filtering; claim C1 states the two agree.) -/
def signStringSpec (mchKey : String) (data : List (String × String)) : String :=
  joinAmp (sortPairs (data.filter (fun kv => kv.2 != ""))) ++ "&key=" ++ mchKey

/-! ### MD5 (CPython `hashlib.md5`), on bytes as `Nat < 256` -/

/-- `2^32`. -/
def M32 : Nat := 4294967296

/-- Rotate a 32-bit word left by `n` bits. -/
def rotl (x n : Nat) : Nat := (((x <<< n) % M32) ||| (x >>> (32 - n)))

/-- The MD5 sine-derived constants `K[0..63]`. -/
def md5K : List Nat :=
  [0xd76aa478, 0xe8c7b756, 0x242070db, 0xc1bdceee,
   0xf57c0faf, 0x4787c62a, 0xa8304613, 0xfd469501,
   0x698098d8, 0x8b44f7af, 0xffff5bb1, 0x895cd7be,
   0x6b901122, 0xfd987193, 0xa679438e, 0x49b40821,
   0xf61e2562, 0xc040b340, 0x265e5a51, 0xe9b6c7aa,
   0xd62f105d, 0x02441453, 0xd8a1e681, 0xe7d3fbc8,
   0x21e1cde6, 0xc33707d6, 0xf4d50d87, 0x455a14ed,
   0xa9e3e905, 0xfcefa3f8, 0x676f02d9, 0x8d2a4c8a,
   0xfffa3942, 0x8771f681, 0x6d9d6122, 0xfde5380c,
   0xa4beea44, 0x4bdecfa9, 0xf6bb4b60, 0xbebfbc70,
   0x289b7ec6, 0xeaa127fa, 0xd4ef3085, 0x04881d05,
   0xd9d4d039, 0xe6db99e5, 0x1fa27cf8, 0xc4ac5665,
   0xf4292244, 0x432aff97, 0xab9423a7, 0xfc93a039,
   0x655b59c3, 0x8f0ccc92, 0xffeff47d, 0x85845dd1,
   0x6fa87e4f, 0xfe2ce6e0, 0xa3014314, 0x4e0811a1,
   0xf7537e82, 0xbd3af235, 0x2ad7d2bb, 0xeb86d391]

/-- The MD5 per-round left-rotation amounts `S[0..63]`. -/
def md5S : List Nat :=
  [7, 12, 17, 22, 7, 12, 17, 22, 7, 12, 17, 22, 7, 12, 17, 22,
   5, 9, 14, 20, 5, 9, 14, 20, 5, 9, 14, 20, 5, 9, 14, 20,
   4, 11, 16, 23, 4, 11, 16, 23, 4, 11, 16, 23, 4, 11, 16, 23,
   6, 10, 15, 21, 6, 10, 15, 21, 6, 10, 15, 21, 6, 10, 15, 21]

/-- The MD5 round function for step `i`. -/
def md5F (i b c d : Nat) : Nat :=
  if i < 16 then (b &&& c) ||| ((b ^^^ 4294967295) &&& d)
  else if i < 32 then (d &&& b) ||| ((d ^^^ 4294967295) &&& c)
  else if i < 48 then b ^^^ c ^^^ d
  else c ^^^ (b ||| (d ^^^ 4294967295))

/-- The MD5 message-word index for step `i`. -/
def md5G (i : Nat) : Nat :=
  if i < 16 then i
  else if i < 32 then (5 * i + 1) % 16
  else if i < 48 then (3 * i + 5) % 16
  else (7 * i) % 16

/-- Little-endian 32-bit word `g` of a 64-byte chunk. -/
def le32 (chunk : List Nat) (g : Nat) : Nat :=
  chunk.getD (4 * g) 0 + 256 * chunk.getD (4 * g + 1) 0 +
    65536 * chunk.getD (4 * g + 2) 0 + 16777216 * chunk.getD (4 * g + 3) 0

/-- One MD5 step on the running state `(a, b, c, d)`. -/
def md5Step (chunk : List Nat) (i : Nat) : Nat × Nat × Nat × Nat → Nat × Nat × Nat × Nat
  | (a, b, c, d) =>
    let f := (md5F i b c d + a + md5K.getD i 0 + le32 chunk (md5G i)) % M32
    (d, (b + rotl f (md5S.getD i 0)) % M32, b, c)

/-- The 64 MD5 steps of one chunk, then the feed-forward addition. -/
def md5Chunk (chunk : List Nat) (st : Nat × Nat × Nat × Nat) : Nat × Nat × Nat × Nat :=
  match st, (List.range 64).foldl (fun s i => md5Step chunk i s) st with
  | (a, b, c, d), (a', b', c', d') =>
    ((a + a') % M32, (b + b') % M32, (c + c') % M32, (d + d') % M32)

/-- Process a padded message 64 bytes at a time.  The first argument is
structural-recursion fuel; any value at least the number of chunks (the
padded length is a safe bound) computes the digest. -/
def md5Chunks : Nat → List Nat → Nat × Nat × Nat × Nat → Nat × Nat × Nat × Nat
  | 0, _, st => st
  | _, [], st => st
  | fuel + 1, b :: rest, st =>
    md5Chunks fuel ((b :: rest).drop 64) (md5Chunk ((b :: rest).take 64) st)

/-- Eight little-endian bytes of a 64-bit quantity. -/
def le64Bytes (n : Nat) : List Nat :=
  [n % 256, n / 256 % 256, n / 65536 % 256, n / 16777216 % 256,
   n / 4294967296 % 256, n / 1099511627776 % 256,
   n / 281474976710656 % 256, n / 72057594037927936 % 256]

/-- MD5 padding: `0x80`, zeros to 56 mod 64, then the bit length in 8
little-endian bytes. -/
def md5Pad (msg : List Nat) : List Nat :=
  let len := msg.length
  let z := (56 + 64 - (len + 1) % 64) % 64
  msg ++ 128 :: List.replicate z 0 ++ le64Bytes ((len * 8) % 18446744073709551616)

/-- Four little-endian bytes of a 32-bit word. -/
def le32Bytes (x : Nat) : List Nat :=
  [x % 256, x / 256 % 256, x / 65536 % 256, x / 16777216 % 256]

/-- A lowercase hexadecimal digit. -/
def hexDigit (n : Nat) : Char :=
  if n < 10 then Char.ofNat (48 + n) else Char.ofNat (87 + n)

/-- Lowercase hexadecimal rendering of a byte list. -/
def hexOfBytes (l : List Nat) : List Char :=
  l.flatMap (fun b => [hexDigit (b / 16), hexDigit (b % 16)])

/-- `hashlib.md5(msg).hexdigest()`: the lowercase-hex MD5 digest of a byte
string. -/
def md5Hex (msg : List Nat) : String :=
  let p := md5Pad msg
  match md5Chunks p.length p (0x67452301, 0xefcdab89, 0x98badcfe, 0x10325476) with
  | (a, b, c, d) => ⟨hexOfBytes (le32Bytes a ++ le32Bytes b ++ le32Bytes c ++ le32Bytes d)⟩

/-- Uppercase one ASCII character. -/
def upChar (c : Char) : Char :=
  if 97 ≤ c.toNat && c.toNat ≤ 122 then Char.ofNat (c.toNat - 32) else c

/-- Python `str.upper()` on ASCII text (the hex digests here are ASCII). -/
def asciiUpper (s : String) : String := ⟨s.data.map upChar⟩

/-- UTF-8 bytes of one code point. -/
def utf8Bytes (c : Nat) : List Nat :=
  if c < 128 then [c]
  else if c < 2048 then [192 + c / 64, 128 + c % 64]
  else if c < 65536 then [224 + c / 4096, 128 + c / 64 % 64, 128 + c % 64]
  else [240 + c / 262144, 128 + c / 4096 % 64, 128 + c / 64 % 64, 128 + c % 64]

/-- `s.encode("utf-8")` as a byte list. -/
def utf8Encode (s : String) : List Nat :=
  s.data.flatMap (fun c => utf8Bytes c.toNat)

/-! ### `WeixinPay.sign` (pay.py lines 114-128)

The method renders values, builds the canonical string, UTF-8 encodes it and
digests.  The MD5 branch returns `hashlib.md5(enc).hexdigest().upper()`.

The HMAC-SHA256 branch executes
`hmac.new(self._mch_key, enc, hashlib.sha256)`: `self._mch_key` is a `str`
(constructor annotation `mch_key: str`; the sandbox handshake also stores a
parsed XML string), and CPython's `hmac.new` requires a bytes-like key —
it raises `TypeError("key: expected bytes or bytearray, but got 'str'")`
before any digest is computed.  The branch is therefore embedded as that
`TypeError`. -/

/-- `SignMethod` from pay.py. -/
inductive SignMethod where
  | MD5
  | HMAC_SHA256
deriving DecidableEq, Repr

/-- The wire name of a method (`SignMethod.*.value` in the source). -/
def SignMethod.value : SignMethod → String
  | .MD5 => "MD5"
  | .HMAC_SHA256 => "HMAC-SHA256"

/-- `WeixinPay.sign(data, method)` with the merchant secret explicit. -/
def sign (mchKey : String) (data : List (String × String)) (method : SignMethod) :
    Except PyErr String :=
  let enc := utf8Encode (signString mchKey data)
  match method with
  | .MD5 => .ok (asciiUpper (md5Hex enc))
  | .HMAC_SHA256 => .error .typeError

/-! ### The XML codec (`aioweixin/util.py`, `to_xml` / `to_dict`)

`to_xml(data)` is `xmltodict.unparse(dict(xml=data))` and `to_dict(content)`
is `xmltodict.parse(content)` followed by `dict(...)` on the root's value.
`xmltodict` (backed by `xml.sax` for unparsing and `expat` for parsing) is an
external dependency, so it is modelled here from its real behaviour on the
flat single-level documents this protocol uses (the spec fixes
`DecodedResponse` as "always single-level"):

* unparse emits `<?xml version="1.0" encoding="utf-8"?>\n`, then the root
  element whose children are `<key>escaped-value</key>` (an empty value gives
  `<key></key>`), with `&`, `<`, `>` escaped as in `xml.sax.saxutils.escape`;
* parse maps each child element to its character data with the three standard
  entities decoded, whitespace-stripped (`strip_whitespace=True` is the
  xmltodict default), and an empty or whitespace-only element parsed as
  Python `None`;
* a document that is not well-formed (in this flat fragment: bad tags,
  missing or mismatched close tags, trailing junk, no root element) makes
  `xmltodict.parse` raise `ExpatError`, embedded as `PyErr.expatError`;
* `dict(root_value)` then raises `TypeError` when the root was empty
  (`dict(None)`) and `ValueError` when it held only text (`dict(str)`);
  attributes, nested children and non-standard entities are outside the
  modelled fragment. -/

/-- The four whitespace characters relevant to this fragment (used both by
expat's token scanning and by Python's `str.strip`). -/
def isWS (c : Char) : Bool := c = ' ' || c = '\n' || c = '\t' || c = '\r'

/-- Drop leading whitespace. -/
def skipWs (l : List Char) : List Char := l.dropWhile isWS

/-- `str.strip()` (restricted to the whitespace set above). -/
def stripWS (l : List Char) : List Char :=
  ((l.dropWhile isWS).reverse.dropWhile isWS).reverse

/-- `pat` is a leading run of `l`. -/
def matchPre : List Char → List Char → Bool
  | [], _ => true
  | _ :: _, [] => false
  | p :: ps, c :: cs => p == c && matchPre ps cs

/-- The tail of the entity reference `&amp;`. -/
def ampRef : List Char := ['a', 'm', 'p', ';']

/-- The tail of the entity reference `&lt;`. -/
def ltRef : List Char := ['l', 't', ';']

/-- The tail of the entity reference `&gt;`. -/
def gtRef : List Char := ['g', 't', ';']

/-- `xml.sax.saxutils.escape` on one character. -/
def escChar (c : Char) : List Char :=
  if c = '&' then '&' :: ampRef
  else if c = '<' then '&' :: ltRef
  else if c = '>' then '&' :: gtRef
  else [c]

/-- `xml.sax.saxutils.escape` on a text. -/
def escList (l : List Char) : List Char := l.flatMap escChar

/-- Decode the three standard entity references in parsed character data
(other `&` sequences pass through unchanged; only the three above occur in
documents this library produces). -/
def unescapeText : List Char → List Char
  | [] => []
  | c :: rest =>
    if c = '&' then
      match rest with
      | 'a' :: 'm' :: 'p' :: ';' :: rest2 => '&' :: unescapeText rest2
      | 'l' :: 't' :: ';' :: rest2 => '<' :: unescapeText rest2
      | 'g' :: 't' :: ';' :: rest2 => '>' :: unescapeText rest2
      | other => c :: unescapeText other
    else c :: unescapeText rest

/-- ASCII XML name start character. -/
def isNameStart (c : Char) : Bool := c.isAlpha || c = '_' || c = ':'

/-- ASCII XML name character. -/
def isNameChar (c : Char) : Bool :=
  c.isAlpha || c.isDigit || c = '_' || c = '-' || c = '.' || c = ':'

/-- Not the markup opener (character-data scanning stops at `<`). -/
def notLt (c : Char) : Bool := c != '<'

/-- One rendered child element: `<key>escaped value</key>`. -/
def renderEntry (kv : String × String) : List Char :=
  '<' :: kv.1.data ++ '>' :: escList kv.2.data ++ '<' :: '/' :: kv.1.data ++ '>' :: []

/-- All rendered child elements, in map order. -/
def escEntries : List (String × String) → List Char
  | [] => []
  | kv :: rest => renderEntry kv ++ escEntries rest

/-- The XML declaration `xmltodict.unparse` emits (sans the final newline). -/
def XMLPROLOG : List Char :=
  "<?xml version=\"1.0\" encoding=\"utf-8\"?>".data

/-- `to_xml` from `aioweixin/util.py`: `xmltodict.unparse(dict(xml=data))`. -/
def to_xml (data : List (String × String)) : String :=
  ⟨XMLPROLOG ++ '\n' :: "<xml>".data ++ escEntries data ++ "</xml>".data⟩

/-- The character data of one element, as xmltodict stores it: entity
references decoded, whitespace-stripped, `None` when nothing remains. -/
def mkVal (t : List Char) : PyVal :=
  let s := stripWS (unescapeText t)
  if s = [] then PyVal.none else PyVal.str ⟨s⟩

/-- Read an XML name: first character a name-start character, then name
characters.  Returns the name and the rest. -/
def readStart (l : List Char) : Option (List Char × List Char) :=
  match l with
  | c :: rest =>
    if isNameStart c then
      some (c :: rest.takeWhile isNameChar, rest.dropWhile isNameChar)
    else Option.none
  | [] => Option.none

/-- Parse one flat child element `<name>text</name>`. -/
def parseChild (l : List Char) : Option ((String × PyVal) × List Char) :=
  match l with
  | c0 :: rest0 =>
    if c0 = '<' then
      match readStart rest0 with
      | some (nm, r1) =>
        match r1 with
        | c1 :: r2 =>
          if c1 = '>' then
            match r2.dropWhile notLt with
            | c2 :: c3 :: r4 =>
              if c2 = '<' then
                if c3 = '/' then
                  if matchPre nm r4 then
                    match r4.drop nm.length with
                    | c5 :: r5 =>
                      if c5 = '>' then some ((⟨nm⟩, mkVal (r2.takeWhile notLt)), r5)
                      else Option.none
                    | [] => Option.none
                  else Option.none
                else Option.none
              else Option.none
            | _ => Option.none
          else Option.none
        | [] => Option.none
      | Option.none => Option.none
    else Option.none
  | [] => Option.none

/-- The closing-tag opener `</`. -/
def closeMark : List Char := ['<', '/']

/-- Parse the root's children until a closing tag is reached.  The first
argument is structural-recursion fuel; the caller passes the input length,
an upper bound on the number of children. -/
def parseChildren : Nat → List Char → Option (List (String × PyVal) × List Char)
  | fuel, l =>
    let l' := skipWs l
    if matchPre closeMark l' then some ([], l')
    else
      match fuel with
      | 0 => Option.none
      | fuel' + 1 =>
        match parseChild l' with
        | some (kv, rest) => (parseChildren fuel' rest).map (fun p => (kv :: p.1, p.2))
        | Option.none => Option.none

/-- Drop an XML declaration `<?...?>` if present. -/
def dropToQGt : List Char → List Char
  | [] => []
  | '?' :: '>' :: rest => rest
  | _ :: rest => dropToQGt rest

/-- Skip a leading `<?xml ...?>` declaration. -/
def skipProlog (l : List Char) : List Char :=
  if matchPre ['<', '?'] l then dropToQGt l else l

/-- Does `</name>` followed only by trailing whitespace close the document?
(`l` is positioned just after the `</`.) -/
def afterClose : List Char → Bool
  | '>' :: r => (skipWs r).isEmpty
  | _ => false

/-- Check the closing tag of the root and the document end. -/
def closeRest (nm : List Char) (l : List Char) : Bool :=
  matchPre nm l && afterClose (l.drop nm.length)

/-- What the root element of a flat document holds. -/
inductive RootContent where
  | empty
  | text (t : List Char)
  | children (kvs : List (String × PyVal))
deriving DecidableEq, Repr

/-- Parse a complete flat document: optional declaration, root element,
whose content is nothing, character data, or a list of flat children.
`Option.none` is an `expat` parse failure. -/
def parseFlatDoc (s : String) : Option (String × RootContent) :=
  match skipWs (skipProlog (skipWs s.data)) with
  | c0 :: rest0 =>
    if c0 = '<' then
      match readStart rest0 with
      | some (nm, r1) =>
        match r1 with
        | c1 :: r2 =>
          if c1 = '>' then
            let rc := skipWs r2
            if matchPre closeMark rc then
              if closeRest nm (rc.drop 2) then some (⟨nm⟩, RootContent.empty)
              else Option.none
            else
              match rc with
              | c2 :: _ =>
                if c2 = '<' then
                  match parseChildren rc.length rc with
                  | some (kvs, r3) =>
                    if closeRest nm (r3.drop 2) then some (⟨nm⟩, RootContent.children kvs)
                    else Option.none
                  | Option.none => Option.none
                else
                  if matchPre closeMark (rc.dropWhile notLt) then
                    if closeRest nm ((rc.dropWhile notLt).drop 2) then
                      some (⟨nm⟩, RootContent.text (stripWS (unescapeText (rc.takeWhile notLt))))
                    else Option.none
                  else Option.none
              | [] => Option.none
          else Option.none
        | [] => Option.none
      | Option.none => Option.none
    else Option.none
  | [] => Option.none

/-- `to_dict` from `aioweixin/util.py`: `xmltodict.parse(content)`, then
`dict(data[k])` on the root's value.  A parse failure is `ExpatError`; a
childless root parses to `None` and `dict(None)` raises `TypeError`; a
text-only root parses to a `str` and `dict(str)` raises `ValueError`;
otherwise the children mapping is returned. -/
def to_dict (content : String) : Except PyErr (List (String × PyVal)) :=
  match parseFlatDoc content with
  | Option.none => .error .expatError
  | some (_, RootContent.empty) => .error .typeError
  | some (_, RootContent.text _) => .error .valueError
  | some (_, RootContent.children kvs) => .ok kvs

/-! ### The response half of `WeixinPay.do` (pay.py lines 153-163)

```
content = await resp.text()
if "xml" not in content:
    return content
data = to_dict(content)
if data["return_code"] == Status.FAIL.value:
    raise WeixinError(data["return_code"], data.get("return_msg", data.get("retmsg", "")))
if data.get("result_code", "") == Status.FAIL.value:
    raise WeixinError(data["result_code"], data["err_code_des"])
return data
```

The response's declared content type is available on `resp` but is never
consulted by the code; it is modelled as an explicit ignored argument of
`handleResponse`. -/

/-- Python's substring test `sub in hay` on the tails of `hay`. -/
def subSearch (pat : List Char) : List Char → Bool
  | [] => matchPre pat []
  | c :: rest => matchPre pat (c :: rest) || subSearch pat rest

/-- Python's `sub in hay` for strings. -/
def pyContains (hay sub : String) : Bool := subSearch sub.data hay.data

/-- `Status.FAIL.value`. -/
def FAIL : PyVal := PyVal.str "FAIL"

/-- The error-classification tail of `WeixinPay.do` (lines 158-163),
applied to the decoded response map. -/
def classify (data : List (String × PyVal)) : Except PyErr (List (String × PyVal)) :=
  match lookupA "return_code" data with
  | Option.none => .error (.keyError "return_code")
  | some rc =>
    if rc = FAIL then
      .error (.weixinError rc (getD data "return_msg" (getD data "retmsg" (PyVal.str ""))))
    else if getD data "result_code" (PyVal.str "") = FAIL then
      match lookupA "err_code_des" data with
      | Option.none => .error (.keyError "err_code_des")
      | some d => .error (.weixinError (getD data "result_code" (PyVal.str "")) d)
    else .ok data

/-- The outcome of `WeixinPay.do` on a received response body: the raw body
string, or the decoded map. -/
inductive DoOutcome where
  | raw (body : String)
  | result (data : List (String × PyVal))
deriving DecidableEq, Repr

/-- The response half of `WeixinPay.do` (lines 153-163).  `contentType` is
the response's declared content type, which the code ignores: the branch is
`if "xml" not in content: return content`, a substring test on the body. -/
def handleResponse (_contentType : String) (content : String) : Except PyErr DoOutcome :=
  if pyContains content "xml" then
    match to_dict content with
    | .error e => .error e
    | .ok m => (classify m).map DoOutcome.result
  else .ok (.raw content)

/-! ### The request half of `WeixinPay.do` (pay.py lines 148-151)

```
data.setdefault("nonce_str", self.nonce_str)
data.setdefault("sign", self.sign(data, method))
if method != SignMethod.MD5:
    data.setdefault("sign_type", method.value)
```

Python evaluates `setdefault`'s second argument eagerly, so `self.sign` runs
on the nonce-filled map even when a `sign` key is already present —
in particular the HMAC-SHA256 `TypeError` fires regardless. -/

/-- The default-filling half of `WeixinPay.do` (lines 148-151). -/
def prepare (pick : Nat → Fin 62) (mchKey : String) (method : SignMethod)
    (data : List (String × String)) : Except PyErr (List (String × String)) :=
  let d1 := setdefault data "nonce_str" (nonce_str pick)
  match sign mchKey d1 method with
  | .error e => .error e
  | .ok sg =>
    let d2 := setdefault d1 "sign" sg
    .ok (if method = SignMethod.MD5 then d2 else setdefault d2 "sign_type" method.value)

/-- The non-strict key order used by the sort. -/
def RelLe (p q : String × String) : Prop := pyLe p.1 q.1 = true

/-- The strict key order: keys ascending and distinct. -/
def RelLt (p q : String × String) : Prop := RelLe p q ∧ p.1 ≠ q.1

/-- A key valid in the modelled XML fragment: an ASCII-style XML name. -/
def validKey (k : String) : Bool :=
  match k.data with
  | [] => false
  | c :: cs => isNameStart c && cs.all isNameChar

/-- A value that survives xmltodict's text handling unchanged: nonempty, no
control characters, and no leading or trailing whitespace (xmltodict strips
text and parses whitespace-only text as `None`). -/
def validValue (v : String) : Bool :=
  (v != "") && (stripWS v.data == v.data) && v.data.all (fun c => 32 ≤ c.toNat)

/-- The embedding of a string map into a decoded (PyVal-valued) map. -/
def strMap (m : List (String × String)) : List (String × PyVal) :=
  m.map (fun kv => (kv.1, PyVal.str kv.2))

end Aioweixin


namespace Aioweixin

/-! ## Helper lemmas: the key order -/

theorem charToNat_inj {c d : Char} (h : c.toNat = d.toNat) : c = d :=
  Char.eq_of_val_eq (UInt32.eq_of_toBitVec_eq (BitVec.eq_of_toNat_eq h))

theorem charsLe_cons_iff {c d : Char} {cs ds : List Char} :
    charsLe (c :: cs) (d :: ds) = true ↔
      (c.toNat < d.toNat ∨ (c.toNat = d.toNat ∧ charsLe cs ds = true)) := by
  show (if c.toNat < d.toNat then true
    else if d.toNat < c.toNat then false else charsLe cs ds) = true ↔ _
  rcases Nat.lt_trichotomy c.toNat d.toNat with h | h | h
  · rw [if_pos h]
    exact iff_of_true rfl (Or.inl h)
  · rw [if_neg (by omega), if_neg (by omega)]
    constructor
    · intro hc
      exact Or.inr ⟨h, hc⟩
    · rintro (hlt | ⟨_, hc⟩)
      · exfalso; omega
      · exact hc
  · rw [if_neg (by omega), if_pos h]
    constructor
    · intro hc
      exact absurd hc (by simp)
    · rintro (hlt | ⟨heq, _⟩) <;> (exfalso; omega)

theorem charsLe_refl (a : List Char) : charsLe a a = true := by
  induction a with
  | nil => rfl
  | cons c cs ih => rw [charsLe_cons_iff]; right; exact ⟨rfl, ih⟩

theorem charsLe_total (a b : List Char) : charsLe a b = true ∨ charsLe b a = true := by
  induction a generalizing b with
  | nil => left; rfl
  | cons c cs ih =>
    cases b with
    | nil => right; rfl
    | cons d ds =>
      rcases Nat.lt_trichotomy c.toNat d.toNat with h | h | h
      · left; rw [charsLe_cons_iff]; left; exact h
      · rcases ih ds with h' | h'
        · left; rw [charsLe_cons_iff]; right; exact ⟨h, h'⟩
        · right; rw [charsLe_cons_iff]; right; exact ⟨h.symm, h'⟩
      · right; rw [charsLe_cons_iff]; left; exact h

theorem charsLe_trans {a b c : List Char} (hab : charsLe a b = true)
    (hbc : charsLe b c = true) : charsLe a c = true := by
  induction a generalizing b c with
  | nil => rfl
  | cons x xs ih =>
    cases b with
    | nil => simp [charsLe] at hab
    | cons y ys =>
      cases c with
      | nil => simp [charsLe] at hbc
      | cons z zs =>
        rw [charsLe_cons_iff] at hab hbc ⊢
        rcases hab with h1 | ⟨h1, h1'⟩
        · rcases hbc with h2 | ⟨h2, _⟩
          · left; omega
          · left; omega
        · rcases hbc with h2 | ⟨h2, h2'⟩
          · left; omega
          · right; exact ⟨by omega, ih h1' h2'⟩

theorem charsLe_antisymm {a b : List Char} (hab : charsLe a b = true)
    (hba : charsLe b a = true) : a = b := by
  induction a generalizing b with
  | nil =>
    cases b with
    | nil => rfl
    | cons d ds => simp [charsLe] at hba
  | cons c cs ih =>
    cases b with
    | nil => simp [charsLe] at hab
    | cons d ds =>
      rw [charsLe_cons_iff] at hab hba
      rcases hab with h1 | ⟨h1, h1'⟩
      · rcases hba with h2 | ⟨h2, _⟩ <;> (exfalso; omega)
      · rcases hba with h2 | ⟨h2, h2'⟩
        · exfalso; omega
        · rw [charToNat_inj h1, ih h1' h2']

theorem pyLe_total (a b : String) : pyLe a b = true ∨ pyLe b a = true :=
  charsLe_total a.data b.data

theorem pyLe_of_not {a b : String} (h : pyLe a b = false) : pyLe b a = true := by
  rcases pyLe_total a b with h' | h'
  · rw [h] at h'; cases h'
  · exact h'

theorem pyLe_trans {a b c : String} (hab : pyLe a b = true) (hbc : pyLe b c = true) :
    pyLe a c = true :=
  charsLe_trans hab hbc

theorem pyLe_antisymm {a b : String} (hab : pyLe a b = true) (hba : pyLe b a = true) :
    a = b := by
  cases a; cases b
  exact congrArg String.mk (charsLe_antisymm hab hba)

instance : IsAntisymm (String × String) RelLt :=
  ⟨fun _ _ h1 h2 => absurd (pyLe_antisymm h1.1 h2.1) h1.2⟩

/-! ## Helper lemmas: the sort -/

theorem perm_insertPair (p : String × String) (l : List (String × String)) :
    List.Perm (insertPair p l) (p :: l) := by
  induction l with
  | nil => exact List.Perm.refl _
  | cons q rest ih =>
    unfold insertPair
    cases hpq : pyLe p.1 q.1 with
    | true =>
      rw [if_pos rfl]
    | false =>
      rw [if_neg (by simp)]
      exact (ih.cons q).trans (List.Perm.swap p q rest)

theorem perm_sortPairs (l : List (String × String)) : List.Perm (sortPairs l) l := by
  induction l with
  | nil => exact List.Perm.refl _
  | cons p rest ih =>
    exact (perm_insertPair p (sortPairs rest)).trans (ih.cons p)

theorem pairwise_insertPair (p : String × String) {l : List (String × String)}
    (h : l.Pairwise RelLe) : (insertPair p l).Pairwise RelLe := by
  induction l with
  | nil => simp [insertPair, RelLe]
  | cons q rest ih =>
    rcases List.pairwise_cons.mp h with ⟨hq, hrest⟩
    unfold insertPair
    cases hpq : pyLe p.1 q.1 with
    | true =>
      rw [if_pos rfl]
      refine List.pairwise_cons.mpr ⟨?_, h⟩
      intro x hx
      rcases List.mem_cons.mp hx with rfl | hx'
      · exact hpq
      · exact pyLe_trans hpq (hq x hx')
    | false =>
      rw [if_neg (by simp)]
      refine List.pairwise_cons.mpr ⟨?_, ih hrest⟩
      intro x hx
      rcases List.mem_cons.mp ((perm_insertPair p rest).mem_iff.mp hx) with rfl | hx'
      · exact pyLe_of_not hpq
      · exact hq x hx'

theorem pairwise_sortPairs (l : List (String × String)) :
    (sortPairs l).Pairwise RelLe := by
  induction l with
  | nil => exact List.Pairwise.nil
  | cons p rest ih => exact pairwise_insertPair p ih

theorem keysNodup_perm {l l' : List (String × String)} (hp : List.Perm l l')
    (h : keysNodup l) : keysNodup l' :=
  ((hp.map Prod.fst).nodup_iff).mp h

theorem keysNodup_sublist {l l' : List (String × String)} (hs : List.Sublist l' l)
    (h : keysNodup l) : keysNodup l' :=
  List.Nodup.sublist (hs.map Prod.fst) h

theorem pairwise_strict {l : List (String × String)} (hn : keysNodup l)
    (h : l.Pairwise RelLe) : l.Pairwise RelLt := by
  have hne : l.Pairwise (fun p q : String × String => p.1 ≠ q.1) :=
    List.pairwise_map.mp hn
  exact (h.and hne).imp (fun hpq => ⟨hpq.1, hpq.2⟩)

theorem sorted_eq {l₁ l₂ : List (String × String)} (hp : List.Perm l₁ l₂)
    (h₁ : l₁.Pairwise RelLt) (h₂ : l₂.Pairwise RelLt) : l₁ = l₂ :=
  List.eq_of_perm_of_sorted hp h₁ h₂

/-- The heart of C1: the source's sort-then-filter equals the spec's
filter-then-sort on any dict (unique keys). -/
theorem filter_sortPairs_comm (m : List (String × String)) (hn : keysNodup m)
    (p : String × String → Bool) :
    (sortPairs m).filter p = sortPairs (m.filter p) := by
  have hperm : List.Perm ((sortPairs m).filter p) (sortPairs (m.filter p)) :=
    ((perm_sortPairs m).filter p).trans (perm_sortPairs (m.filter p)).symm
  have hsub : List.Sublist ((sortPairs m).filter p) (sortPairs m) :=
    List.filter_sublist _
  have h₁ : ((sortPairs m).filter p).Pairwise RelLt :=
    pairwise_strict
      (keysNodup_sublist hsub (keysNodup_perm (perm_sortPairs m).symm hn))
      ((pairwise_sortPairs m).sublist hsub)
  have h₂ : (sortPairs (m.filter p)).Pairwise RelLt :=
    pairwise_strict
      (keysNodup_perm (perm_sortPairs (m.filter p)).symm
        (keysNodup_sublist (List.filter_sublist _) hn))
      (pairwise_sortPairs (m.filter p))
  exact sorted_eq hperm h₁ h₂


theorem lookupA_eq_none {α : Type} {k : String} {m : List (String × α)} :
    lookupA k m = Option.none ↔ k ∉ m.map Prod.fst := by
  induction m with
  | nil => simp [lookupA]
  | cons kv rest ih =>
    simp only [lookupA, List.map_cons, List.mem_cons]
    by_cases h : kv.1 = k
    · subst h
      simp
    · rw [if_neg h, ih]
      constructor
      · intro hnin
        rintro (rfl | hin)
        · exact h rfl
        · exact hnin hin
      · intro hboth hin
        exact hboth (Or.inr hin)

theorem keysNodup_snoc {m : List (String × String)} {k v : String}
    (hn : keysNodup m) (hk : lookupA k m = Option.none) :
    keysNodup (m ++ [(k, v)]) := by
  unfold keysNodup at hn ⊢
  rw [List.map_append, List.nodup_append]
  refine ⟨hn, List.nodup_singleton k, ?_⟩
  intro a ha hb
  simp only [List.map_cons, List.map_nil, List.mem_singleton] at hb
  subst hb
  exact absurd ha (lookupA_eq_none.mp hk)

/-! ## Claim C1 -/

/-- C1: the canonical signing string built by `sign` drops entries whose
string-rendered value is empty, sorts the remaining entries by key in
ascending byte-wise order, joins them as `key=value` pairs with `&`, and
appends `&key=<shared_secret>` with no trailing separator; in particular, for
`{"b": "2", "a": "1"}` and secret `"key123"` it is `"a=1&b=2&key=key123"`. -/
theorem c1_canonical_string (key : String) (m : List (String × String))
    (hn : keysNodup m) :
    signString key m = signStringSpec key m ∧
      signString "key123" [("b", "2"), ("a", "1")] = "a=1&b=2&key=key123" := by
  constructor
  · unfold signString signStringSpec
    rw [filter_sortPairs_comm m hn]
  · rfl

/-- Witness for C1 at the spec's own example. -/
theorem c1_canonical_string_witness :
    signString "key123" [("b", "2"), ("a", "1")] =
        signStringSpec "key123" [("b", "2"), ("a", "1")] ∧
      signString "key123" [("b", "2"), ("a", "1")] = "a=1&b=2&key=key123" :=
  c1_canonical_string "key123" [("b", "2"), ("a", "1")] (by decide)

/-! ## Claim C2 -/

/-- C2 counterexample: `sign` does not exclude the `sign` key from its own
computation — adding a non-empty `"sign"` entry changes the MD5 signature
(`MD5("a=1&key=k")` vs `MD5("a=1&sign=X&key=k")`). -/
theorem c2_sign_key_participates :
    sign "k" [("a", "1")] SignMethod.MD5 ≠
      sign "k" [("a", "1"), ("sign", "X")] SignMethod.MD5 := by
  decide

/-- C2 (amended): the signature is computed over the parameters excluding
every empty-valued field: appending an entry with empty string value (for a
key not already present) never changes the computed signature, under either
algorithm.  (The `sign` field itself is *not* excluded by `sign`; in the `do`
pipeline it is absent from its own computation only because `setdefault`
computes the signature before inserting it.) -/
theorem c2_empty_entries_ignored (key : String) (method : SignMethod)
    (m : List (String × String)) (k : String) (hn : keysNodup m)
    (hk : lookupA k m = Option.none) :
    sign key (m ++ [(k, "")]) method = sign key m method := by
  have hfilter : List.filter (fun kv => kv.2 != "") [((k : String), ("" : String))] = [] := rfl
  have hs : signString key (m ++ [(k, "")]) = signString key m := by
    unfold signString
    rw [filter_sortPairs_comm m hn, filter_sortPairs_comm _ (keysNodup_snoc hn hk),
      List.filter_append, hfilter, List.append_nil]
  simp only [sign, hs]

/-- Witness for C2 (amended) at a concrete map. -/
theorem c2_empty_entries_ignored_witness :
    sign "s" ([("a", "1")] ++ [("b", "")]) SignMethod.MD5 =
      sign "s" [("a", "1")] SignMethod.MD5 :=
  c2_empty_entries_ignored "s" SignMethod.MD5 [("a", "1")] "b" (by decide) (by decide)

/-! ## Claim C3 -/

/-- C3 (code bug): on the MD5 algorithm `sign` returns the uppercase-hex MD5
digest of the UTF-8 canonical string (checked against the reference digest of
`"a=1&b=2&key=key123"`), but on HMAC-SHA256 the source passes the `str`
merchant key directly to `hmac.new`, which requires a bytes-like key, so
every HMAC-SHA256 call raises `TypeError` instead of returning a digest. -/
theorem c3_hmac_str_key_type_error :
    (∀ (key : String) (m : List (String × String)),
        sign key m SignMethod.HMAC_SHA256 = .error .typeError) ∧
      sign "key123" [("b", "2"), ("a", "1")] SignMethod.MD5 =
        .ok "21489F4A413053A5C8C8B31DEA8439E3" := by
  refine ⟨fun key m => rfl, by decide⟩

/-! ## Claim C7 -/

/-- C7 (code bug): with a non-default algorithm the `do` pipeline never
reaches the `sign`/`sign_type` default-filling steps: `setdefault` evaluates
`self.sign(data, method)` eagerly and the HMAC-SHA256 branch raises
`TypeError` (the `str` key bug of C3), here evaluated at the empty map. -/
theorem c7_prepare_hmac_crashes (pick : Nat → Fin 62) (mchKey : String) :
    prepare pick mchKey SignMethod.HMAC_SHA256 [] = .error .typeError := rfl

/-- C7 (MD5 path): with the default algorithm the pipeline fills
`nonce_str` and `sign` iff absent and never touches `sign_type`. -/
theorem c7_prepare_md5_fills_defaults (pick : Nat → Fin 62) (mchKey : String)
    (data : List (String × String)) :
    prepare pick mchKey SignMethod.MD5 data =
      .ok (setdefault (setdefault data "nonce_str" (nonce_str pick)) "sign"
        (signString mchKey (setdefault data "nonce_str" (nonce_str pick)) |>
          utf8Encode |> md5Hex |> asciiUpper)) := rfl

/-! ## Claim C9 -/

/-- C9: `rand_str(n)` returns exactly `n` characters, all from the 62-symbol
alphanumeric alphabet (26 lowercase, 26 uppercase, 10 digits, pairwise
distinct), and the pipeline's default nonce length is 32. -/
theorem c9_rand_str_alphanumeric (pick : Nat → Fin 62) (n : Nat) :
    (rand_str pick n).length = n ∧
      ((rand_str pick n).data.all (fun c => ALPHANUM.contains c) = true) ∧
      (nonce_str pick).length = 32 ∧
      ALPHANUM.length = 62 ∧ ALPHANUM.Nodup := by
  have hlen : ∀ len, (rand_str pick len).length = len := by
    intro len
    show ((List.range len).map (fun i => pickChar (pick i))).length = len
    rw [List.length_map, List.length_range]
  refine ⟨hlen n, ?_, hlen 32, by decide, by decide⟩
  rw [List.all_eq_true]
  intro c hc
  rcases List.mem_map.mp hc with ⟨i, _, rfl⟩
  have hmem : pickChar (pick i) ∈ ALPHANUM := by
    have hlt : (pick i).val < ALPHANUM.length := (pick i).isLt
    unfold pickChar
    rw [List.getD_eq_getElem _ _ hlt]
    exact List.getElem_mem hlt
  exact List.elem_eq_true_of_mem hmem


/-! ## Claim C4 -/

/-- C4: two-tier error classification of a decoded response map (with the
inspected keys present; the missing-key partiality is claim C10).  If
`return_code` is the FAIL token, a `WeixinError` carries `return_code` and
`return_msg` (falling back to `retmsg`, then `""`); otherwise if
`result_code` is present and FAIL, a `WeixinError` carries `result_code` and
`err_code_des`; otherwise the map itself is returned. -/
theorem c4_classify_two_tier (m : List (String × PyVal)) (rc : PyVal)
    (hrc : lookupA "return_code" m = some rc) :
    (rc = FAIL →
      classify m =
        .error (.weixinError rc (getD m "return_msg" (getD m "retmsg" (PyVal.str ""))))) ∧
    (rc ≠ FAIL → ∀ d, lookupA "result_code" m = some FAIL →
      lookupA "err_code_des" m = some d →
      classify m = .error (.weixinError FAIL d)) ∧
    (rc ≠ FAIL → lookupA "result_code" m = Option.none → classify m = .ok m) ∧
    (rc ≠ FAIL → ∀ v, lookupA "result_code" m = some v → v ≠ FAIL →
      classify m = .ok m) := by
  refine ⟨?_, ?_, ?_, ?_⟩
  · intro h
    unfold classify
    rw [hrc]
    dsimp only
    rw [if_pos h]
  · intro h d hres hdes
    unfold classify
    rw [hrc]
    dsimp only
    rw [if_neg h]
    have hget : getD m "result_code" (PyVal.str "") = FAIL := by
      unfold getD
      rw [hres]
      rfl
    rw [if_pos hget, hdes, hget]
  · intro h hres
    unfold classify
    rw [hrc]
    dsimp only
    rw [if_neg h]
    have hget : getD m "result_code" (PyVal.str "") = PyVal.str "" := by
      unfold getD
      rw [hres]
      rfl
    rw [if_neg (by rw [hget]; decide)]
  · intro h v hres hne
    unfold classify
    rw [hrc]
    dsimp only
    rw [if_neg h]
    have hget : getD m "result_code" (PyVal.str "") = v := by
      unfold getD
      rw [hres]
      rfl
    rw [if_neg (by rw [hget]; exact hne)]

/-- Witness for C4: a doubly-successful response map is returned as the
business result. -/
theorem c4_classify_two_tier_witness :
    classify [("return_code", PyVal.str "SUCCESS"), ("result_code", PyVal.str "SUCCESS")] =
      .ok [("return_code", PyVal.str "SUCCESS"), ("result_code", PyVal.str "SUCCESS")] :=
  (c4_classify_two_tier
      [("return_code", PyVal.str "SUCCESS"), ("result_code", PyVal.str "SUCCESS")]
      (PyVal.str "SUCCESS") (by decide)).2.2.2 (by decide)
    (PyVal.str "SUCCESS") (by decide) (by decide)

/-! ## Claim C5 -/

/-- C5 counterexample: the `do` pipeline decides raw passthrough by the
substring test `"xml" not in content` on the *body*, not by the declared
content type: a plain-text body containing `"xml"` is fed to the XML decoder
(here raising the parse error) instead of being returned unchanged. -/
theorem c5_body_substring_decides :
    handleResponse "text/plain" "bill xml data" = .error .expatError ∧
      handleResponse "text/plain" "bill xml data" ≠
        .ok (DoOutcome.raw "bill xml data") := by
  exact ⟨rfl, by decide⟩

/-- C5 (amended): the pipeline ignores the declared content type entirely;
it returns the raw body unchanged exactly when the substring `"xml"` does
not occur in the body text: with no `"xml"` substring the raw body comes
back, and with it the body is handed to the XML decoder and the classifier
(so the outcome is never a raw passthrough), whatever the content type. -/
theorem c5_raw_iff_no_xml_substring (ct ct2 body : String) :
    handleResponse ct body = handleResponse ct2 body ∧
      (pyContains body "xml" = false →
        handleResponse ct body = .ok (DoOutcome.raw body)) ∧
      (pyContains body "xml" = true →
        handleResponse ct body =
          (match to_dict body with
           | .error e => .error e
           | .ok m => (classify m).map DoOutcome.result)) ∧
      (pyContains body "xml" = true →
        ∀ b, handleResponse ct body ≠ .ok (DoOutcome.raw b)) := by
  refine ⟨rfl, ?_, ?_, ?_⟩
  · intro h
    unfold handleResponse
    rw [if_neg (by simp [h])]
  · intro h
    unfold handleResponse
    rw [if_pos h]
  · intro h b hcontra
    unfold handleResponse at hcontra
    rw [if_pos h] at hcontra
    cases hd : to_dict body with
    | error e => rw [hd] at hcontra; cases hcontra
    | ok m =>
      rw [hd] at hcontra
      dsimp only at hcontra
      cases hc : classify m with
      | error e => rw [hc] at hcontra; cases hcontra
      | ok m2 =>
        rw [hc] at hcontra
        dsimp only [Except.map] at hcontra
        cases hcontra

/-- Witness for C5 (amended): a body with no `"xml"` substring passes
through raw, whatever the content type, and a body containing `"xml"` is
never passed through raw. -/
theorem c5_raw_iff_no_xml_substring_witness :
    (handleResponse "text/plain" "hello" = .ok (DoOutcome.raw "hello")) ∧
      handleResponse "text/plain" "bill xml data" ≠
        .ok (DoOutcome.raw "bill xml data") :=
  ⟨(c5_raw_iff_no_xml_substring "text/plain" "application/json" "hello").2.1 (by decide),
   (c5_raw_iff_no_xml_substring "text/plain" "application/json"
      "bill xml data").2.2.2 (by decide) "bill xml data"⟩

/-! ## Claim C8 -/

/-- C8: decoding fails — rather than returning a map — on every input that
does not parse (the source raises `ExpatError` from `xmltodict.parse`) and on
every input whose root element has no children (the source's `dict(...)` on
the root's parsed value raises `TypeError` for an empty root, parsed as
`None`, and `ValueError` for a text-only root, parsed as a `str`). -/
theorem c8_decode_failures (s : String) :
    (parseFlatDoc s = Option.none → to_dict s = .error .expatError) ∧
    (∀ tag, parseFlatDoc s = some (tag, RootContent.empty) →
      to_dict s = .error .typeError) ∧
    (∀ tag t, parseFlatDoc s = some (tag, RootContent.text t) →
      to_dict s = .error .valueError) := by
  refine ⟨?_, ?_, ?_⟩
  · intro h
    unfold to_dict
    rw [h]
  · intro tag h
    unfold to_dict
    rw [h]
  · intro tag t h
    unfold to_dict
    rw [h]

/-- Witness for C8: a childless root fails decoding with the `dict(None)`
`TypeError`. -/
theorem c8_decode_failures_witness :
    to_dict "<xml></xml>" = .error .typeError :=
  (c8_decode_failures "<xml></xml>").2.1 "xml" (by decide)

/-! ## Claim C10 -/

/-- C10 counterexample: a map whose `result_code` is FAIL and which lacks
`err_code_des` does *not* always raise a `KeyError` — when `return_code` is
also FAIL the first tier raises a structured `WeixinError` first. -/
theorem c10_weixinerror_preempts_keyerror :
    classify [("return_code", PyVal.str "FAIL"), ("result_code", PyVal.str "FAIL")] =
      .error (.weixinError (PyVal.str "FAIL") (PyVal.str "")) := rfl

/-- C10 (amended): classification is partial — a map lacking `return_code`
raises `KeyError("return_code")`, and a map whose `return_code` is present
and not FAIL, whose `result_code` is FAIL, and which lacks `err_code_des`
raises `KeyError("err_code_des")`, in both cases an unstructured lookup
failure rather than a `WeixinError` or a result. -/
theorem c10_classification_keyerrors (m : List (String × PyVal)) :
    (lookupA "return_code" m = Option.none →
      classify m = .error (.keyError "return_code")) ∧
    (∀ rc, lookupA "return_code" m = some rc → rc ≠ FAIL →
      lookupA "result_code" m = some FAIL →
      lookupA "err_code_des" m = Option.none →
      classify m = .error (.keyError "err_code_des")) := by
  constructor
  · intro h
    unfold classify
    rw [h]
  · intro rc hrc hne hres hdes
    unfold classify
    rw [hrc]
    dsimp only
    rw [if_neg hne]
    have hget : getD m "result_code" (PyVal.str "") = FAIL := by
      unfold getD
      rw [hres]
      rfl
    rw [if_pos hget, hdes]

/-- Witness for C10 (amended): the empty map raises
`KeyError("return_code")`. -/
theorem c10_classification_keyerrors_witness :
    classify [] = .error (.keyError "return_code") :=
  (c10_classification_keyerrors []).1 rfl


/-! ## Helper lemmas: the codec -/

theorem takeWhile_split {p : Char → Bool} {t : List Char} (ht : ∀ x ∈ t, p x = true)
    {c : Char} (hc : p c = false) (rest : List Char) :
    (t ++ c :: rest).takeWhile p = t := by
  induction t with
  | nil => simp [List.takeWhile_cons, hc]
  | cons a t' ih =>
    have ha : p a = true := ht a (List.mem_cons_self a t')
    simp only [List.cons_append, List.takeWhile_cons, ha, if_true]
    rw [ih (fun x hx => ht x (List.mem_cons_of_mem a hx))]

theorem dropWhile_split {p : Char → Bool} {t : List Char} (ht : ∀ x ∈ t, p x = true)
    {c : Char} (hc : p c = false) (rest : List Char) :
    (t ++ c :: rest).dropWhile p = c :: rest := by
  induction t with
  | nil => simp [List.dropWhile_cons, hc]
  | cons a t' ih =>
    have ha : p a = true := ht a (List.mem_cons_self a t')
    simp only [List.cons_append, List.dropWhile_cons, ha, if_true]
    exact ih (fun x hx => ht x (List.mem_cons_of_mem a hx))

theorem matchPre_append (t rest : List Char) : matchPre t (t ++ rest) = true := by
  induction t with
  | nil => rfl
  | cons c t' ih => simp [matchPre, ih]

theorem drop_len_append (t rest : List Char) : (t ++ rest).drop t.length = rest := by
  induction t with
  | nil => rfl
  | cons c t' ih => simp [ih]

theorem escList_cons (c : Char) (v : List Char) :
    escList (c :: v) = escChar c ++ escList v := by
  simp [escList]

theorem escList_no_lt (v : List Char) : ∀ x ∈ escList v, notLt x = true := by
  intro x hx
  rcases List.mem_flatMap.mp hx with ⟨c, _, hc⟩
  unfold escChar at hc
  by_cases h1 : c = '&'
  · rw [if_pos h1] at hc
    simp only [ampRef, List.mem_cons, List.mem_singleton, List.not_mem_nil, or_false] at hc
    rcases hc with rfl | rfl | rfl | rfl | rfl <;> rfl
  · rw [if_neg h1] at hc
    by_cases h2 : c = '<'
    · rw [if_pos h2] at hc
      simp only [ltRef, List.mem_cons, List.mem_singleton, List.not_mem_nil, or_false] at hc
      rcases hc with rfl | rfl | rfl | rfl <;> rfl
    · rw [if_neg h2] at hc
      by_cases h3 : c = '>'
      · rw [if_pos h3] at hc
        simp only [gtRef, List.mem_cons, List.mem_singleton, List.not_mem_nil, or_false] at hc
        rcases hc with rfl | rfl | rfl | rfl <;> rfl
      · rw [if_neg h3] at hc
        rcases List.mem_singleton.mp hc with rfl
        simp [notLt, h2]

theorem unescape_escList (v : List Char) : unescapeText (escList v) = v := by
  induction v with
  | nil => rfl
  | cons c cs ih =>
    rw [escList_cons]
    unfold escChar
    by_cases h1 : c = '&'
    · subst h1
      rw [if_pos rfl]
      show '&' :: unescapeText (escList cs) = '&' :: cs
      rw [ih]
    · rw [if_neg h1]
      by_cases h2 : c = '<'
      · subst h2
        rw [if_pos rfl]
        show '<' :: unescapeText (escList cs) = '<' :: cs
        rw [ih]
      · rw [if_neg h2]
        by_cases h3 : c = '>'
        · subst h3
          rw [if_pos rfl]
          show '>' :: unescapeText (escList cs) = '>' :: cs
          rw [ih]
        · rw [if_neg h3]
          show unescapeText (c :: escList cs) = c :: cs
          rw [unescapeText.eq_def]
          dsimp only
          rw [if_neg h1, ih]

end Aioweixin

namespace Aioweixin

theorem validValue_parts {v : String} (hv : validValue v = true) :
    v.data ≠ [] ∧ stripWS v.data = v.data := by
  unfold validValue at hv
  simp only [Bool.and_eq_true] at hv
  obtain ⟨⟨h1, h2⟩, _⟩ := hv
  refine ⟨?_, beq_iff_eq.mp h2⟩
  intro hd
  exact bne_iff_ne.mp h1 (String.ext hd)

theorem validKey_parts {k : String} (hk : validKey k = true) :
    ∃ c cs, k.data = c :: cs ∧ isNameStart c = true ∧ ∀ x ∈ cs, isNameChar x = true := by
  unfold validKey at hk
  cases hkd : k.data with
  | nil => rw [hkd] at hk; cases hk
  | cons c cs =>
    rw [hkd] at hk
    dsimp only at hk
    rw [Bool.and_eq_true] at hk
    exact ⟨c, cs, rfl, hk.1, fun x hx => List.all_eq_true.mp hk.2 x hx⟩

theorem mkVal_escList {v : String} (hv : validValue v = true) :
    mkVal (escList v.data) = PyVal.str v := by
  obtain ⟨hne, hstrip⟩ := validValue_parts hv
  simp only [mkVal]
  rw [unescape_escList, hstrip, if_neg hne]

theorem readStart_name {c : Char} {cs : List Char} (hc : isNameStart c = true)
    (hcs : ∀ x ∈ cs, isNameChar x = true) {d : Char} (hd : isNameChar d = false)
    (rest : List Char) :
    readStart (c :: (cs ++ d :: rest)) = some (c :: cs, d :: rest) := by
  unfold readStart
  dsimp only
  rw [if_pos hc, takeWhile_split hcs hd, dropWhile_split hcs hd]

/-- Parsing one rendered child element recovers the entry and the rest. -/
theorem parseChild_render (k v : String) (rest : List Char)
    (hk : validKey k = true) (hv : validValue v = true) :
    parseChild (renderEntry (k, v) ++ rest) = some ((k, PyVal.str v), rest) := by
  obtain ⟨c, cs, hkd, hstart, hchars⟩ := validKey_parts hk
  have hshape : renderEntry (k, v) ++ rest =
      '<' :: (c :: (cs ++ '>' :: (escList v.data ++ '<' :: '/' :: (c :: (cs ++ '>' :: rest))))) := by
    simp [renderEntry, hkd, List.cons_append, List.append_assoc]
  rw [hshape]
  unfold parseChild
  dsimp only
  rw [if_pos rfl]
  rw [readStart_name hstart hchars (by decide) _]
  dsimp only
  rw [if_pos rfl]
  have hnl : ∀ x ∈ escList v.data, notLt x = true := escList_no_lt v.data
  have hlt : notLt '<' = false := rfl
  rw [dropWhile_split hnl hlt, takeWhile_split hnl hlt]
  dsimp only
  rw [if_pos rfl, if_pos rfl]
  have hmp : matchPre (c :: cs) (c :: (cs ++ '>' :: rest)) = true := by
    have h := matchPre_append (c :: cs) ('>' :: rest)
    simpa using h
  rw [if_pos hmp]
  have hdrop : (c :: (cs ++ '>' :: rest)).drop (c :: cs).length = '>' :: rest := by
    simp
  rw [hdrop]
  dsimp only
  rw [if_pos rfl]
  rw [mkVal_escList hv]
  have hkmk : (⟨c :: cs⟩ : String) = k := by
    rw [← hkd]
  rw [hkmk]


theorem slash_beq_of_nameStart {c : Char} (h : isNameStart c = true) :
    ('/' == c) = false := by
  cases hq : ('/' == c) with
  | false => rfl
  | true =>
    have he : ('/' : Char) = c := beq_iff_eq.mp hq
    rw [← he] at h
    exact absurd h (by decide)

theorem matchPre_closeMark_cons {c : Char} (hc : ('/' == c) = false) (Y : List Char) :
    matchPre closeMark ('<' :: c :: Y) = false := by
  show (('<' == '<') && (('/' == c) && matchPre [] Y)) = false
  rw [hc]
  rfl

theorem length_le_escEntries (m : List (String × String)) (t : List Char) :
    m.length ≤ (escEntries m ++ t).length := by
  induction m with
  | nil => simp
  | cons kv m' ih =>
    have h1 : escEntries (kv :: m') ++ t = renderEntry kv ++ (escEntries m' ++ t) := by
      simp [escEntries, List.append_assoc]
    rw [h1, List.length_append]
    have h2 : 1 ≤ (renderEntry kv).length := by
      simp [renderEntry]
    have h3 := ih
    simp only [List.length_cons]
    omega

theorem parseChildren_stop (fuel : Nat) (t : List Char) :
    parseChildren fuel ('<' :: '/' :: t) = some ([], '<' :: '/' :: t) := by
  unfold parseChildren
  rw [show skipWs ('<' :: '/' :: t) = '<' :: '/' :: t from rfl]
  rw [if_pos (show matchPre closeMark ('<' :: '/' :: t) = true from rfl)]

/-- Parsing the rendered children recovers the map (as string values), up to
the closing tag. -/
theorem parseChildren_render (m : List (String × String)) :
    ∀ (fuel : Nat) (t : List Char), m.length ≤ fuel →
      (∀ kv ∈ m, validKey kv.1 = true ∧ validValue kv.2 = true) →
      parseChildren fuel (escEntries m ++ '<' :: '/' :: t) =
        some (strMap m, '<' :: '/' :: t) := by
  induction m with
  | nil =>
    intro fuel t _ _
    rw [show escEntries [] ++ '<' :: '/' :: t = '<' :: '/' :: t from List.nil_append _]
    exact parseChildren_stop fuel t
  | cons kv m' ih =>
    intro fuel t hf hv
    obtain ⟨k, v⟩ := kv
    have hkvm : validKey k = true ∧ validValue v = true :=
      hv (k, v) (List.mem_cons_self _ _)
    obtain ⟨c, cs, hkd, hstart, _⟩ := validKey_parts hkvm.1
    cases fuel with
    | zero => simp at hf
    | succ fuel' =>
      have hshape : escEntries ((k, v) :: m') ++ '<' :: '/' :: t =
          renderEntry (k, v) ++ (escEntries m' ++ '<' :: '/' :: t) := by
        simp [escEntries, List.append_assoc]
      rw [hshape]
      simp only [parseChildren]
      rw [show skipWs (renderEntry (k, v) ++ (escEntries m' ++ '<' :: '/' :: t)) =
        renderEntry (k, v) ++ (escEntries m' ++ '<' :: '/' :: t) from rfl]
      have hexp : renderEntry (k, v) ++ (escEntries m' ++ '<' :: '/' :: t) =
          '<' :: c :: (cs ++ '>' :: (escList v.data ++ '<' :: '/' :: (c :: (cs ++ '>' :: (escEntries m' ++ '<' :: '/' :: t))))) := by
        simp [renderEntry, hkd, List.cons_append, List.append_assoc]
      have hmp : matchPre closeMark (renderEntry (k, v) ++ (escEntries m' ++ '<' :: '/' :: t)) = false := by
        rw [hexp]
        exact matchPre_closeMark_cons (slash_beq_of_nameStart hstart) _
      rw [hmp]
      rw [if_neg (by simp)]
      rw [parseChild_render k v _ hkvm.1 hkvm.2]
      dsimp only
      rw [ih fuel' t (by simp only [List.length_cons] at hf; omega)
        (fun kv hkv => hv kv (List.mem_cons_of_mem _ hkv))]
      rfl

/-- Parsing a rendered nonempty flat document yields the root tag `xml` with
the map's entries as children. -/
theorem parseFlatDoc_render (m : List (String × String)) (hne : m ≠ [])
    (hv : ∀ kv ∈ m, validKey kv.1 = true ∧ validValue kv.2 = true) :
    parseFlatDoc (to_xml m) = some ("xml", RootContent.children (strMap m)) := by
  cases m with
  | nil => exact absurd rfl hne
  | cons kv m' =>
    obtain ⟨k, v⟩ := kv
    have hkvm : validKey k = true ∧ validValue v = true :=
      hv (k, v) (List.mem_cons_self _ _)
    obtain ⟨c, cs, hkd, hstart, _⟩ := validKey_parts hkvm.1
    unfold parseFlatDoc
    rw [show skipWs (skipProlog (skipWs (to_xml ((k, v) :: m')).data)) =
      '<' :: ('x' :: 'm' :: 'l' :: '>' :: (escEntries ((k, v) :: m') ++
        '<' :: '/' :: ('x' :: 'm' :: 'l' :: '>' :: []))) from rfl]
    dsimp only
    rw [if_pos rfl]
    rw [show readStart ('x' :: 'm' :: 'l' :: '>' :: (escEntries ((k, v) :: m') ++
        '<' :: '/' :: ('x' :: 'm' :: 'l' :: '>' :: []))) =
      some (['x', 'm', 'l'], '>' :: (escEntries ((k, v) :: m') ++
        '<' :: '/' :: ('x' :: 'm' :: 'l' :: '>' :: []))) from rfl]
    dsimp only
    rw [if_pos rfl]
    have hexp : escEntries ((k, v) :: m') ++ '<' :: '/' :: ('x' :: 'm' :: 'l' :: '>' :: []) =
        '<' :: c :: (cs ++ '>' :: (escList v.data ++ '<' :: '/' :: (c :: (cs ++ '>' ::
          (escEntries m' ++ '<' :: '/' :: ('x' :: 'm' :: 'l' :: '>' :: [])))))) := by
      simp [escEntries, renderEntry, hkd, List.cons_append, List.append_assoc]
    rw [hexp]
    rw [show skipWs ('<' :: c :: (cs ++ '>' :: (escList v.data ++ '<' :: '/' :: (c :: (cs ++ '>' ::
        (escEntries m' ++ '<' :: '/' :: ('x' :: 'm' :: 'l' :: '>' :: []))))))) =
      '<' :: c :: (cs ++ '>' :: (escList v.data ++ '<' :: '/' :: (c :: (cs ++ '>' ::
        (escEntries m' ++ '<' :: '/' :: ('x' :: 'm' :: 'l' :: '>' :: [])))))) from rfl]
    rw [matchPre_closeMark_cons (slash_beq_of_nameStart hstart) _]
    rw [if_neg (by simp)]
    dsimp only
    rw [if_pos rfl]
    rw [← hexp]
    rw [parseChildren_render ((k, v) :: m') _ _
      (length_le_escEntries ((k, v) :: m') ('<' :: '/' :: ('x' :: 'm' :: 'l' :: '>' :: []))) hv]
    dsimp only
    rw [if_pos (show closeRest ['x', 'm', 'l']
      (('<' :: '/' :: ('x' :: 'm' :: 'l' :: '>' :: [])).drop 2) = true from rfl)]


/-! ## Claim C6 -/

/-- C6 counterexample: the round-trip law fails for an empty-valued entry —
`to_xml` renders `{"a": ""}` as `<a></a>`, and xmltodict parses an empty
element back as Python `None`, not `""`, so `to_dict(to_xml(m)) ≠ m`. -/
theorem c6_empty_value_not_roundtrip :
    to_dict (to_xml [("a", "")]) = .ok [("a", PyVal.none)] ∧
      to_dict (to_xml [("a", "")]) ≠ .ok [("a", PyVal.str "")] := by
  exact ⟨by decide, by decide⟩

/-- C6 (amended): for every nonempty flat string-keyed map with pairwise
distinct keys that are XML names, and with values that are nonempty, contain
no control characters, and carry no leading/trailing whitespace, decoding the
XML produced by encoding the map yields the map again (every value a string).
(`keysNodup` records that the map is a dict; an empty map encodes to a
childless root, which `to_dict` rejects — claim C8 — and an empty or
whitespace-only value decodes to `None`, the counterexample above.) -/
theorem c6_roundtrip (m : List (String × String)) (hne : m ≠ [])
    (hn : keysNodup m)
    (hv : ∀ kv ∈ m, validKey kv.1 = true ∧ validValue kv.2 = true) :
    to_dict (to_xml m) = .ok (strMap m) := by
  have hkeys := hn
  unfold to_dict
  rw [parseFlatDoc_render m hne hv]

/-- Witness for C6 (amended) at the spec's own round-trip example. -/
theorem c6_roundtrip_witness :
    to_dict (to_xml [("out_trade_no", "123"), ("total_fee", "100")]) =
      .ok [("out_trade_no", PyVal.str "123"), ("total_fee", PyVal.str "100")] :=
  c6_roundtrip [("out_trade_no", "123"), ("total_fee", "100")]
    (by decide) (by decide) (by decide)

end Aioweixin
